import Mathlib

/-
  Shallow embedding of the docker-registry-dashboard automation engines.

  Sources:
  - Retention Engine: src/internal/models/models.go (package registry:
    RunRetention, processRepository).
  - Scan Scheduler:   src/unnamed/part_000 (package tasks: Scheduler,
    checkSchedules, triggerPolicy, worker).

  Modelling conventions:
  - Go time.Time / time.Duration are Int nanoseconds; the Go zero time is
    Option.none where IsZero is tested (ScanPolicy.NextRunAt / LastRunAt).
  - Regular-expression compilation (regexp.Compile) is abstracted as a
    parameter compile : String -> Option (String -> Bool); none models a
    compilation error (Go returns a nil *Regexp plus an error, and every
    call site keeps the nil).
  - Registry HTTP access is a capability record (Client); fallible calls
    return Except.  Side effects (DELETE requests, DB writes, scanner
    invocations) are reified as explicit result lists / event lists.
  - The per-repository fetch loop runs goroutines bounded by a semaphore
    and appends under a mutex; the collection order is nondeterministic in
    Go but the engine immediately sorts by creation time, so the embedding
    collects in tag order and then sorts.
-/

namespace RegistryDashboard

/-- RetentionPolicy (src/internal/models/models.go, struct RetentionPolicy);
fields not read by the engine (ID, RegistryID, LastRunAt) are omitted. -/
structure RetentionPolicy where
  KeepLastCount : Int
  KeepDays : Int
  DryRun : Bool
  FilterRepos : String
  ExcludeRepos : String
  ExcludeTags : String
deriving Repr, DecidableEq

/-- Registry access capability consumed by the engines (client.go methods
ListRepositories, ListTags, GetImageCreated, GetDigestForTag,
DeleteManifest).  Repository and tag listings are reduced to their names,
the only parts the engines read. -/
structure Client where
  ListRepositories : Except String (List String)
  ListTags : String → Except String (List String)
  GetImageCreated : String → String → Except String Int
  GetDigestForTag : String → String → Except String String
  DeleteManifest : String → String → Except String Unit

/-- imageInfo (models.go, package registry). -/
structure imageInfo where
  Tag : String
  Digest : String
  Created : Int
  Protected : Bool
deriving Repr, DecidableEq

/-- RetentionLog (src/internal/models/models.go). -/
structure RetentionLog where
  Repository : String
  Tag : String
  Digest : String
  Created : Int
  Action : String
  Reason : String
deriving Repr, DecidableEq

def nsPerHour : Int := 3600000000000

def nsPerDay : Int := 86400000000000

/-- Go: age := now.Sub(img.Created); days := int(age.Hours() / 24).
Durations are nanoseconds; the float64 division followed by int(...)
truncates toward zero, modelled exactly by Int.tdiv. -/
def ageDays (now created : Int) : Int := Int.tdiv (now - created) nsPerDay

/-- Every call site of regexp.Compile guards on the empty pattern and keeps
the nil regexp when compilation fails, so the compiled filter is none for
an empty pattern and none again for an invalid one. -/
def compileOpt (compile : String → Option (String → Bool)) (pat : String) :
    Option (String → Bool) :=
  if pat = "" then none else compile pat

/-- The concurrent fetch loop of processRepository: per tag, mark it
protected when it matches the ExcludeTags regexp, fetch creation time and
digest, and drop the tag when either fetch fails. -/
def collectImages (client : Client) (repoName : String)
    (excludeTagRe : Option (String → Bool)) : List String → List imageInfo
  | [] => []
  | t :: rest =>
    let isProt : Bool :=
      match excludeTagRe with
      | some re => re t
      | none => false
    match client.GetImageCreated repoName t with
    | Except.error _ => collectImages client repoName excludeTagRe rest
    | Except.ok created =>
      match client.GetDigestForTag repoName t with
      | Except.error _ => collectImages client repoName excludeTagRe rest
      | Except.ok digest =>
        { Tag := t, Digest := digest, Created := created, Protected := isProt } ::
          collectImages client repoName excludeTagRe rest

/-- Insertion step for the sort by Created descending (newest first),
mirroring sort.Slice with less = images[i].Created.After(images[j].Created). -/
def insertByCreated (x : imageInfo) : List imageInfo → List imageInfo
  | [] => [x]
  | y :: ys => if y.Created < x.Created then x :: y :: ys else y :: insertByCreated x ys

/-- Sort by Created descending; ties have no specified order. -/
def sortImages : List imageInfo → List imageInfo
  | [] => []
  | x :: xs => insertByCreated x (sortImages xs)

/-- tagDecision (models.go, local type in processRepository). -/
structure tagDecision where
  img : imageInfo
  keep : Bool
  reason : String
deriving Repr, DecidableEq

/-- Pass 1 body of processRepository for the candidate at index i of the
sorted list: keep-last rule, keep-days rule, whitelist override, and the
no-policy fail-safe. -/
def decideTag (policy : RetentionPolicy) (now : Int) (i : Int)
    (img : imageInfo) : Bool × String :=
  let s0 : Bool × String := (false, "default keep")
  let s1 : Bool × String :=
    if 0 < policy.KeepLastCount ∧ i < policy.KeepLastCount then
      (true, "within last " ++ toString policy.KeepLastCount ++ " images")
    else s0
  let s2 : Bool × String :=
    if 0 < policy.KeepDays ∧ ageDays now img.Created < policy.KeepDays then
      if s1.1 then (true, s1.2 ++ " AND newer than " ++ toString policy.KeepDays ++ " days")
      else (true, "newer than " ++ toString policy.KeepDays ++ " days")
    else s1
  let s3 : Bool × String :=
    if img.Protected then
      (true, if s2.2 = "default keep" then "matches whitelist tag"
             else s2.2 ++ " AND matches whitelist")
    else s2
  if policy.KeepLastCount ≤ 0 ∧ policy.KeepDays ≤ 0 then (true, "no policy set") else s3

/-- Pass 1 of processRepository over the sorted candidates, index running
from i0 (called with 0). -/
def decisionPass (policy : RetentionPolicy) (now : Int) :
    Nat → List imageInfo → List tagDecision
  | _, [] => []
  | i, img :: rest =>
    let d := decideTag policy now (i : Int) img
    { img := img, keep := d.1, reason := d.2 } :: decisionPass policy now (i + 1) rest

/-- The keptDigests set recorded during pass 1: digests of all decisions
with keep = true. -/
def keptDigests (ds : List tagDecision) : List String :=
  (ds.filter (fun d => d.keep)).map (fun d => d.img.Digest)

def mkLog (repoName : String) (d : tagDecision) (action reason : String) :
    RetentionLog :=
  { Repository := repoName, Tag := d.img.Tag, Digest := d.img.Digest,
    Created := d.img.Created, Action := action, Reason := reason }

/-- Pass 2 body of processRepository for one decision.  The second
component lists the DeleteManifest calls issued (repository, digest). -/
def actionOne (client : Client) (repoName : String) (policy : RetentionPolicy)
    (kept : List String) (d : tagDecision) : RetentionLog × List (String × String) :=
  if d.keep then (mkLog repoName d "kept" d.reason, [])
  else if d.img.Digest ∈ kept then
    (mkLog repoName d "kept" "digest shared with retained tag", [])
  else if policy.DryRun then
    (mkLog repoName d "would_delete" "exceeds retention limits", [])
  else
    match client.DeleteManifest repoName d.img.Digest with
    | Except.error e =>
      (mkLog repoName d "error_delete" ("failed to delete: " ++ e),
        [(repoName, d.img.Digest)])
    | Except.ok _ =>
      (mkLog repoName d "deleted" "exceeds retention limits",
        [(repoName, d.img.Digest)])

/-- Pass 2 of processRepository: one log per decision, accumulating the
DeleteManifest calls in order. -/
def actionPass (client : Client) (repoName : String) (policy : RetentionPolicy)
    (kept : List String) : List tagDecision → List RetentionLog × List (String × String)
  | [] => ([], [])
  | d :: rest =>
    let hd := actionOne client repoName policy kept d
    let tl := actionPass client repoName policy kept rest
    (hd.1 :: tl.1, hd.2 ++ tl.2)

/-- processRepository (models.go): list tags, fetch candidate data, sort,
run the two passes.  The second result component is the list of
DeleteManifest calls issued. -/
def processRepository (compile : String → Option (String → Bool)) (client : Client)
    (repoName : String) (policy : RetentionPolicy) (now : Int) :
    Except String (List RetentionLog × List (String × String)) :=
  match client.ListTags repoName with
  | Except.error e => Except.error e
  | Except.ok tags =>
    if tags.isEmpty then Except.ok ([], [])
    else
      let excludeTagRe := compileOpt compile policy.ExcludeTags
      let images := sortImages (collectImages client repoName excludeTagRe tags)
      let ds := decisionPass policy now 0 images
      Except.ok (actionPass client repoName policy (keptDigests ds) ds)

/-- Repository filtering in RunRetention: skipped when filterRepoRe is set
and does not match, or when excludeRepoRe is set and matches. -/
def skipRepo (filterRe excludeRe : Option (String → Bool)) (name : String) : Bool :=
  (match filterRe with
    | some re => !re name
    | none => false) ||
  (match excludeRe with
    | some re => re name
    | none => false)

/-- The repository loop of RunRetention; a repository whose processing
fails is logged and skipped. -/
def runRepos (compile : String → Option (String → Bool)) (client : Client)
    (policy : RetentionPolicy) (now : Int)
    (filterRe excludeRe : Option (String → Bool)) :
    List String → List RetentionLog × List (String × String)
  | [] => ([], [])
  | repo :: rest =>
    let tl := runRepos compile client policy now filterRe excludeRe rest
    if skipRepo filterRe excludeRe repo then tl
    else
      match processRepository compile client repo policy now with
      | Except.error _ => tl
      | Except.ok res => (res.1 ++ tl.1, res.2 ++ tl.2)

/-- RunRetention (models.go, package registry). -/
def RunRetention (compile : String → Option (String → Bool)) (client : Client)
    (policy : RetentionPolicy) (now : Int) :
    Except String (List RetentionLog × List (String × String)) :=
  match client.ListRepositories with
  | Except.error e => Except.error ("failed to list repositories: " ++ e)
  | Except.ok repos =>
    Except.ok (runRepos compile client policy now
      (compileOpt compile policy.FilterRepos)
      (compileOpt compile policy.ExcludeRepos) repos)

/-
  Scan Scheduler embedding (src/unnamed/part_000, package tasks).
-/

/-- ScanPolicy (src/internal/models/models.go).  NextRunAt / LastRunAt are
Go time.Time values whose zero value is significant (IsZero), modelled as
Option Int (none = zero time). -/
structure ScanPolicy where
  ID : Int
  RegistryID : Int
  Enabled : Bool
  IntervalHours : Int
  NextRunAt : Option Int
  LastRunAt : Option Int
  FilterRepos : String
  FilterTags : String
deriving Repr, DecidableEq

/-- Registry connection record; only the fields the scheduler reads after
resolving it (reg.ID, reg.URL) are kept — the credential fields feed only
the abstracted client construction. -/
structure Registry where
  ID : Int
  URL : String
deriving Repr, DecidableEq

/-- ScanJob (part_000). -/
structure ScanJob where
  RegistryURL : String
  RegistryID : Int
  Repo : String
  Tag : String
deriving Repr, DecidableEq

/-- The due test of checkSchedules:
p.NextRunAt.IsZero() or now.After(p.NextRunAt). -/
def isDue (now : Int) (p : ScanPolicy) : Bool :=
  match p.NextRunAt with
  | none => true
  | some t => decide (t < now)

/-- interval := p.IntervalHours; if interval < 1 then interval = 24. -/
def scheduleInterval (p : ScanPolicy) : Int :=
  if p.IntervalHours < 1 then 24 else p.IntervalHours

/-- next := now.Add(interval hours). -/
def scheduleNext (now : Int) (p : ScanPolicy) : Int :=
  now + scheduleInterval p * nsPerHour

/-- The policy record as UpdatePolicyRunTime persists it (the embedding
assumes the DB update succeeds; the Go code discards its error). -/
def triggerUpdate (now : Int) (p : ScanPolicy) : ScanPolicy :=
  { p with LastRunAt := some now, NextRunAt := some (scheduleNext now p) }

/-- Observable steps of one checkSchedules tick, in program order.  The
spawnTrigger event marks the launch of the asynchronous triggerPolicy
goroutine; all of its enumeration work happens after this point. -/
inductive SchedEvent where
  | persistRunTime (policyID lastRun nextRun : Int)
  | spawnTrigger (policyID : Int)
deriving Repr, DecidableEq

/-- checkSchedules (part_000): for each enabled policy that is due,
persist the new run times and then spawn the trigger goroutine.  Returns
the policy list as the store now holds it, plus the event trace. -/
def checkSchedules (now : Int) : List ScanPolicy → List ScanPolicy × List SchedEvent
  | [] => ([], [])
  | p :: rest =>
    let tl := checkSchedules now rest
    if isDue now p then
      (triggerUpdate now p :: tl.1,
        SchedEvent.persistRunTime p.ID now (scheduleNext now p) ::
          SchedEvent.spawnTrigger p.ID :: tl.2)
    else (p :: tl.1, tl.2)

def queueCap : Nat := 100

/-- One enqueue attempt of triggerPolicy.  Go uses a select between the
buffered channel send and a 2-second timeout; with no worker draining
during the dispatch this succeeds exactly when the buffer has a free slot,
and a drop leaves the counter unchanged. -/
def enqueueJob (job : ScanJob) (st : List ScanJob × Int) : List ScanJob × Int :=
  if st.1.length < queueCap then (st.1 ++ [job], st.2 + 1) else st

/-- The repository/tag loop of triggerPolicy over (queue, count). -/
def dispatchRepos (client : Client) (filterRe : Option (String → Bool))
    (reg : Registry) : List String → List ScanJob × Int → List ScanJob × Int
  | [], st => st
  | repo :: rest, st =>
    if (match filterRe with
        | some re => !re repo
        | none => false) then
      dispatchRepos client filterRe reg rest st
    else
      match client.ListTags repo with
      | Except.error _ => dispatchRepos client filterRe reg rest st
      | Except.ok tags =>
        dispatchRepos client filterRe reg rest
          (tags.foldl
            (fun s t =>
              enqueueJob
                { RegistryURL := reg.URL, RegistryID := reg.ID, Repo := repo, Tag := t } s)
            st)

/-- triggerPolicy (part_000).  Returns the queue after the dispatch and
the queued-job count it reports (none when the function returned before
its final count log: unresolved registry, repository-listing failure, or
an invalid FilterRepos regex, each of which leaves the queue untouched). -/
def triggerPolicy (compile : String → Option (String → Bool))
    (getRegistry : Int → Except String Registry) (mkClient : Registry → Client)
    (p : ScanPolicy) (queue0 : List ScanJob) : List ScanJob × Option Int :=
  match getRegistry p.RegistryID with
  | Except.error _ => (queue0, none)
  | Except.ok reg =>
    match (mkClient reg).ListRepositories with
    | Except.error _ => (queue0, none)
    | Except.ok repos =>
      if p.FilterRepos = "" then
        let st := dispatchRepos (mkClient reg) none reg repos (queue0, 0)
        (st.1, some st.2)
      else
        match compile p.FilterRepos with
        | none => (queue0, none)
        | some re =>
          let st := dispatchRepos (mkClient reg) (some re) reg repos (queue0, 0)
          (st.1, some st.2)

/-- VulnerabilityScan (src/internal/models/models.go); the Digest field is
never set by the worker and is omitted. -/
structure VulnerabilityScan where
  RegistryID : Int
  Repository : String
  Tag : String
  Status : String
  Summary : String
  Report : String
  ScannedAt : Int
deriving Repr, DecidableEq

/-- Capabilities the worker consumes: db.SaveScan and scanner.ScanImage
(the latter returning (report, summary) on success). -/
structure WorkerEnv where
  saveScan : VulnerabilityScan → Except String Unit
  scanImage : String → String → String → Except String (String × String)

/-- Observable steps of the worker loop. -/
inductive WorkerEvent where
  | saveAttempt (s : VulnerabilityScan)
  | scanAttempt (url repo tag : String)
deriving Repr, DecidableEq

/-- The scanning-status record the worker saves before scanning. -/
def initialScan (now : Int) (job : ScanJob) : VulnerabilityScan :=
  { RegistryID := job.RegistryID, Repository := job.Repo, Tag := job.Tag,
    Status := "scanning", Summary := "", Report := "", ScannedAt := now }

/-- The worker body for one dequeued job (part_000, func worker): save the
scanning record; on failure log and continue to the next job; otherwise
invoke the scanner and save the final record.  now1/now2 are the two
time.Now() reads. -/
def processJob (env : WorkerEnv) (now1 now2 : Int) (job : ScanJob) :
    List WorkerEvent :=
  match env.saveScan (initialScan now1 job) with
  | Except.error _ => [WorkerEvent.saveAttempt (initialScan now1 job)]
  | Except.ok _ =>
    let result :=
      match env.scanImage job.RegistryURL job.Repo job.Tag with
      | Except.error e =>
        { initialScan now1 job with
          Status := "failed"
          Report := "\x7b\"error\": \"" ++ e ++ "\"\x7d"
          ScannedAt := now2 }
      | Except.ok rs =>
        { initialScan now1 job with
          Status := "completed"
          Report := rs.1
          Summary := rs.2
          ScannedAt := now2 }
    [WorkerEvent.saveAttempt (initialScan now1 job),
      WorkerEvent.scanAttempt job.RegistryURL job.Repo job.Tag,
      WorkerEvent.saveAttempt result]

/-- The worker loop over the jobs it dequeues (FIFO). -/
def runWorker (env : WorkerEnv) (now1 now2 : Int) : List ScanJob → List WorkerEvent
  | [] => []
  | job :: rest => processJob env now1 now2 job ++ runWorker env now1 now2 rest

/-
  Lemmas about the retention engine.
-/

lemma decisionPass_length (policy : RetentionPolicy) (now : Int) :
    ∀ (i0 : Nat) (imgs : List imageInfo),
      (decisionPass policy now i0 imgs).length = imgs.length := by
  intro i0 imgs
  induction imgs generalizing i0 with
  | nil => rfl
  | cons x xs ih => simp [decisionPass, ih]

lemma decisionPass_get (policy : RetentionPolicy) (now : Int)
    (imgs : List imageInfo) :
    ∀ (i0 i : Nat) (h : i < imgs.length),
      (decisionPass policy now i0 imgs).get
          ⟨i, by rw [decisionPass_length]; exact h⟩ =
        { img := imgs.get ⟨i, h⟩
          keep := (decideTag policy now ((i0 + i : Nat) : Int) (imgs.get ⟨i, h⟩)).1
          reason := (decideTag policy now ((i0 + i : Nat) : Int) (imgs.get ⟨i, h⟩)).2 } := by
  induction imgs with
  | nil => intro i0 i h; exact absurd h (Nat.not_lt_zero i)
  | cons x xs ih =>
    intro i0 i h
    cases i with
    | zero => simp [decisionPass]
    | succ j =>
      have hj : j < xs.length := Nat.lt_of_succ_lt_succ h
      have hrec := ih (i0 + 1) j hj
      simp only [decisionPass, List.get_cons_succ]
      rw [hrec]
      have : i0 + 1 + j = i0 + (j + 1) := by omega
      rw [this]

lemma decisionPass_map_img (policy : RetentionPolicy) (now : Int) :
    ∀ (i0 : Nat) (imgs : List imageInfo),
      (decisionPass policy now i0 imgs).map (fun d => d.img) = imgs := by
  intro i0 imgs
  induction imgs generalizing i0 with
  | nil => rfl
  | cons x xs ih => simp [decisionPass, ih]

lemma mem_keptDigests {ds : List tagDecision} {dgst : String} :
    dgst ∈ keptDigests ds ↔ ∃ d ∈ ds, d.keep = true ∧ d.img.Digest = dgst := by
  simp only [keptDigests, List.mem_map, List.mem_filter]
  constructor
  · rintro ⟨d, ⟨hmem, hkeep⟩, hdg⟩
    exact ⟨d, hmem, hkeep, hdg⟩
  · rintro ⟨d, hmem, hkeep, hdg⟩
    exact ⟨d, ⟨hmem, hkeep⟩, hdg⟩

lemma actionPass_fst_length (client : Client) (repoName : String)
    (policy : RetentionPolicy) (kept : List String) :
    ∀ ds : List tagDecision,
      ((actionPass client repoName policy kept ds).1).length = ds.length := by
  intro ds
  induction ds with
  | nil => rfl
  | cons d rest ih => simp [actionPass, ih]

lemma actionPass_fst_get (client : Client) (repoName : String)
    (policy : RetentionPolicy) (kept : List String) (ds : List tagDecision) :
    ∀ (i : Nat) (h : i < ds.length),
      (actionPass client repoName policy kept ds).1.get
          ⟨i, by rw [actionPass_fst_length]; exact h⟩ =
        (actionOne client repoName policy kept (ds.get ⟨i, h⟩)).1 := by
  induction ds with
  | nil => intro i h; exact absurd h (Nat.not_lt_zero i)
  | cons d rest ih =>
    intro i h
    cases i with
    | zero => simp [actionPass]
    | succ j =>
      have hj : j < rest.length := Nat.lt_of_succ_lt_succ h
      have hrec := ih j hj
      simp only [actionPass, List.get_cons_succ]
      exact hrec

lemma actionOne_snd_cases (client : Client) (repoName : String)
    (policy : RetentionPolicy) (kept : List String) (d : tagDecision) :
    (actionOne client repoName policy kept d).2 = [] ∨
      ((actionOne client repoName policy kept d).2 = [(repoName, d.img.Digest)] ∧
        d.keep = false ∧ d.img.Digest ∉ kept ∧ policy.DryRun = false) := by
  unfold actionOne
  cases hk : d.keep with
  | true => simp
  | false =>
    by_cases hm : d.img.Digest ∈ kept
    · simp [hm]
    · cases hd : policy.DryRun with
      | true => simp [hm, hd]
      | false =>
        cases hdel : client.DeleteManifest repoName d.img.Digest with
        | error e => simp [hm, hd, hdel]
        | ok u => simp [hm, hd, hdel]

lemma mem_actionPass_deletes {client : Client} {repoName : String}
    {policy : RetentionPolicy} {kept : List String} :
    ∀ {ds : List tagDecision} {call : String × String},
      call ∈ (actionPass client repoName policy kept ds).2 →
      ∃ d ∈ ds, d.keep = false ∧ d.img.Digest ∉ kept ∧
        call = (repoName, d.img.Digest) := by
  intro ds
  induction ds with
  | nil => intro call hmem; simp [actionPass] at hmem
  | cons d rest ih =>
    intro call hmem
    simp only [actionPass, List.mem_append] at hmem
    rcases hmem with hmem | hmem
    · rcases actionOne_snd_cases client repoName policy kept d with hc | ⟨hc, hk, hnm, _⟩
      · rw [hc] at hmem; simp at hmem
      · rw [hc] at hmem
        simp only [List.mem_singleton] at hmem
        exact ⟨d, List.mem_cons_self d rest, hk, hnm, hmem⟩
    · obtain ⟨d', hd', hrest⟩ := ih hmem
      exact ⟨d', List.mem_cons_of_mem d hd', hrest⟩

lemma actionOne_snd_dryRun {client : Client} {repoName : String}
    {policy : RetentionPolicy} {kept : List String} {d : tagDecision}
    (h : policy.DryRun = true) :
    (actionOne client repoName policy kept d).2 = [] := by
  rcases actionOne_snd_cases client repoName policy kept d with hc | ⟨_, _, _, hd⟩
  · exact hc
  · rw [h] at hd; cases hd

lemma actionPass_snd_dryRun {client : Client} {repoName : String}
    {policy : RetentionPolicy} {kept : List String}
    (h : policy.DryRun = true) :
    ∀ ds : List tagDecision, (actionPass client repoName policy kept ds).2 = [] := by
  intro ds
  induction ds with
  | nil => rfl
  | cons d rest ih => simp [actionPass, actionOne_snd_dryRun h, ih]

lemma processRepository_snd_dryRun {compile : String → Option (String → Bool)}
    {client : Client} {repoName : String} {policy : RetentionPolicy} {now : Int}
    {res : List RetentionLog × List (String × String)}
    (h : policy.DryRun = true)
    (hrun : processRepository compile client repoName policy now = Except.ok res) :
    res.2 = [] := by
  unfold processRepository at hrun
  split at hrun
  · exact Except.noConfusion hrun
  · split at hrun
    · cases hrun; rfl
    · simp only [Except.ok.injEq] at hrun
      rw [← hrun]
      exact actionPass_snd_dryRun h _

lemma runRepos_snd_dryRun {compile : String → Option (String → Bool)}
    {client : Client} {policy : RetentionPolicy} {now : Int}
    {filterRe excludeRe : Option (String → Bool)}
    (h : policy.DryRun = true) :
    ∀ repos : List String,
      (runRepos compile client policy now filterRe excludeRe repos).2 = [] := by
  intro repos
  induction repos with
  | nil => rfl
  | cons repo rest ih =>
    unfold runRepos
    by_cases hskip : skipRepo filterRe excludeRe repo
    · simp [hskip, ih]
    · simp only [hskip, if_neg, Bool.false_eq_true, if_false]
      cases hp : processRepository compile client repo policy now with
      | error e => simpa using ih
      | ok res =>
        have := processRepository_snd_dryRun h hp
        simp [this, ih]

lemma decideTag_no_policy {policy : RetentionPolicy} (now i : Int)
    (img : imageInfo)
    (h1 : policy.KeepLastCount ≤ 0) (h2 : policy.KeepDays ≤ 0) :
    decideTag policy now i img = (true, "no policy set") := by
  have hx : policy.KeepLastCount ≤ 0 ∧ policy.KeepDays ≤ 0 := ⟨h1, h2⟩
  simp [decideTag, hx]

lemma decisionPass_no_policy {policy : RetentionPolicy} {now : Int}
    (h1 : policy.KeepLastCount ≤ 0) (h2 : policy.KeepDays ≤ 0) :
    ∀ (i0 : Nat) (imgs : List imageInfo),
      decisionPass policy now i0 imgs =
        imgs.map (fun img => { img := img, keep := true, reason := "no policy set" }) := by
  intro i0 imgs
  induction imgs generalizing i0 with
  | nil => rfl
  | cons x xs ih =>
    simp [decisionPass, decideTag_no_policy now _ x h1 h2, ih]

lemma actionPass_all_keep {client : Client} {repoName : String}
    {policy : RetentionPolicy} {kept : List String} :
    ∀ {ds : List tagDecision}, (∀ d ∈ ds, d.keep = true) →
      actionPass client repoName policy kept ds =
        (ds.map (fun d => mkLog repoName d "kept" d.reason), []) := by
  intro ds
  induction ds with
  | nil => intro _; rfl
  | cons d rest ih =>
    intro hall
    have hd : d.keep = true := hall d (List.mem_cons_self d rest)
    have hrest := ih (fun d' hmem => hall d' (List.mem_cons_of_mem d hmem))
    simp [actionPass, actionOne, hd, hrest]

lemma decideTag_keep_last_only {policy : RetentionPolicy} (now i : Int)
    (img : imageInfo)
    (h1 : 0 < policy.KeepLastCount) (h2 : policy.KeepDays ≤ 0)
    (h3 : img.Protected = false) :
    decideTag policy now i img =
      (decide (i < policy.KeepLastCount),
        if i < policy.KeepLastCount then
          "within last " ++ toString policy.KeepLastCount ++ " images"
        else "default keep") := by
  have hn2 : ¬(0 < policy.KeepDays ∧ ageDays now img.Created < policy.KeepDays) :=
    fun hc => absurd hc.1 (not_lt.mpr h2)
  have hn4 : ¬(policy.KeepLastCount ≤ 0 ∧ policy.KeepDays ≤ 0) :=
    fun hc => absurd h1 (not_lt.mpr hc.1)
  by_cases hi : i < policy.KeepLastCount
  · simp [decideTag, hn2, hn4, h3, hi, h1]
  · simp [decideTag, hn2, hn4, h3, hi]

lemma decideTag_keep_days_only {policy : RetentionPolicy} (now i : Int)
    (img : imageInfo)
    (h1 : policy.KeepLastCount ≤ 0) (h2 : 0 < policy.KeepDays)
    (h3 : img.Protected = false) :
    (decideTag policy now i img).1 =
      decide (ageDays now img.Created < policy.KeepDays) := by
  have hn1 : ¬(0 < policy.KeepLastCount ∧ i < policy.KeepLastCount) :=
    fun hc => absurd hc.1 (not_lt.mpr h1)
  have hn4 : ¬(policy.KeepLastCount ≤ 0 ∧ policy.KeepDays ≤ 0) :=
    fun hc => absurd h2 (not_lt.mpr hc.2)
  by_cases ha : ageDays now img.Created < policy.KeepDays
  · simp [decideTag, hn1, hn4, h3, ha, h2]
  · simp [decideTag, hn1, hn4, h3, ha]

lemma nsPerDay_pos : (0 : Int) < nsPerDay := by norm_num [nsPerDay]

/-- The strict-age characterisation of the keep-days test: the truncated
day count is below D exactly when the age is strictly below D days. -/
lemma ageDays_lt_iff {age D : Int} (hD : 0 < D) :
    Int.tdiv age nsPerDay < D ↔ age < D * nsPerDay := by
  rcases le_or_lt 0 age with h | h
  · rw [Int.tdiv_eq_ediv h (le_of_lt nsPerDay_pos)]
    exact Int.ediv_lt_iff_lt_mul nsPerDay_pos
  · have hmul : (0 : Int) ≤ D * nsPerDay :=
      mul_nonneg (le_of_lt hD) (le_of_lt nsPerDay_pos)
    have hlhs : Int.tdiv age nsPerDay ≤ 0 := by
      have heq : Int.tdiv age nsPerDay = -(Int.tdiv (-age) nsPerDay) := by
        conv_lhs => rw [show age = -(-age) by ring]
        exact Int.neg_tdiv (-age) nsPerDay
      have hnn : 0 ≤ Int.tdiv (-age) nsPerDay :=
        Int.tdiv_nonneg (by omega) (le_of_lt nsPerDay_pos)
      omega
    constructor
    · intro _; exact lt_of_lt_of_le h hmul
    · intro _; exact lt_of_le_of_lt hlhs hD

lemma insertByCreated_perm (x : imageInfo) :
    ∀ l : List imageInfo, (insertByCreated x l).Perm (x :: l) := by
  intro l
  induction l with
  | nil => exact List.Perm.refl _
  | cons y ys ih =>
    unfold insertByCreated
    by_cases h : y.Created < x.Created
    · simp only [h, if_true]
      exact List.Perm.refl _
    · simp only [h, if_false]
      exact (List.Perm.cons y ih).trans (List.Perm.swap x y ys)

lemma sortImages_perm : ∀ l : List imageInfo, (sortImages l).Perm l := by
  intro l
  induction l with
  | nil => exact List.Perm.refl _
  | cons x xs ih =>
    exact (insertByCreated_perm x (sortImages xs)).trans (List.Perm.cons x ih)

lemma not_mem_collectImages {client : Client} {repoName : String}
    {re : Option (String → Bool)} {t : String}
    (hfail : (∃ e, client.GetImageCreated repoName t = Except.error e) ∨
      (∃ e, client.GetDigestForTag repoName t = Except.error e)) :
    ∀ tags : List String,
      t ∉ (collectImages client repoName re tags).map imageInfo.Tag := by
  intro tags
  induction tags with
  | nil => simp [collectImages]
  | cons s rest ih =>
    unfold collectImages
    cases hc : client.GetImageCreated repoName s with
    | error e => exact ih
    | ok created =>
      cases hd : client.GetDigestForTag repoName s with
      | error e => exact ih
      | ok dgst =>
        simp only [List.map_cons, List.mem_cons]
        intro hmem
        rcases hmem with hts | hmem
        · subst hts
          rcases hfail with ⟨e, hf⟩ | ⟨e, hf⟩
          · rw [hf] at hc; cases hc
          · rw [hf] at hd; cases hd
        · exact ih hmem

lemma actionOne_fst_tag (client : Client) (repoName : String)
    (policy : RetentionPolicy) (kept : List String) (d : tagDecision) :
    ((actionOne client repoName policy kept d).1).Tag = d.img.Tag := by
  unfold actionOne
  repeat' split
  all_goals simp [mkLog]

lemma actionOne_fst_digest (client : Client) (repoName : String)
    (policy : RetentionPolicy) (kept : List String) (d : tagDecision) :
    ((actionOne client repoName policy kept d).1).Digest = d.img.Digest := by
  unfold actionOne
  repeat' split
  all_goals simp [mkLog]

lemma actionPass_fst_map_tag (client : Client) (repoName : String)
    (policy : RetentionPolicy) (kept : List String) :
    ∀ ds : List tagDecision,
      ((actionPass client repoName policy kept ds).1).map RetentionLog.Tag =
        ds.map (fun d => d.img.Tag) := by
  intro ds
  induction ds with
  | nil => rfl
  | cons d rest ih =>
    simp [actionPass, actionOne_fst_tag, ih]

lemma actionPass_fst_map_digest (client : Client) (repoName : String)
    (policy : RetentionPolicy) (kept : List String) :
    ∀ ds : List tagDecision,
      ((actionPass client repoName policy kept ds).1).map RetentionLog.Digest =
        ds.map (fun d => d.img.Digest) := by
  intro ds
  induction ds with
  | nil => rfl
  | cons d rest ih =>
    simp [actionPass, actionOne_fst_digest, ih]

lemma decisionPass_map_img_tag (policy : RetentionPolicy) (now : Int)
    (i0 : Nat) (imgs : List imageInfo) :
    (decisionPass policy now i0 imgs).map (fun d => d.img.Tag) =
      imgs.map imageInfo.Tag := by
  have h := decisionPass_map_img policy now i0 imgs
  calc (decisionPass policy now i0 imgs).map (fun d => d.img.Tag)
      = ((decisionPass policy now i0 imgs).map (fun d => d.img)).map imageInfo.Tag := by
        rw [List.map_map]; rfl
    _ = imgs.map imageInfo.Tag := by rw [h]

lemma decisionPass_map_img_digest (policy : RetentionPolicy) (now : Int)
    (i0 : Nat) (imgs : List imageInfo) :
    (decisionPass policy now i0 imgs).map (fun d => d.img.Digest) =
      imgs.map imageInfo.Digest := by
  have h := decisionPass_map_img policy now i0 imgs
  calc (decisionPass policy now i0 imgs).map (fun d => d.img.Digest)
      = ((decisionPass policy now i0 imgs).map (fun d => d.img)).map imageInfo.Digest := by
        rw [List.map_map]; rfl
    _ = imgs.map imageInfo.Digest := by rw [h]

lemma no_policy_repo_result (client : Client) (repoName : String)
    (policy : RetentionPolicy) (now : Int) (imgs : List imageInfo)
    (h1 : policy.KeepLastCount ≤ 0) (h2 : policy.KeepDays ≤ 0) :
    (∀ lg ∈ (actionPass client repoName policy
        (keptDigests (decisionPass policy now 0 imgs)) (decisionPass policy now 0 imgs)).1,
      lg.Action = "kept" ∧ lg.Reason = "no policy set")
    ∧ (actionPass client repoName policy
        (keptDigests (decisionPass policy now 0 imgs)) (decisionPass policy now 0 imgs)).2 = [] := by
  have hds := @decisionPass_no_policy policy now h1 h2 0 imgs
  have hall : ∀ d ∈ decisionPass policy now 0 imgs, d.keep = true := by
    rw [hds]
    intro d hmem
    simp only [List.mem_map] at hmem
    obtain ⟨img, _, himg⟩ := hmem
    rw [← himg]
  have hreason : ∀ d ∈ decisionPass policy now 0 imgs, d.reason = "no policy set" := by
    rw [hds]
    intro d hmem
    simp only [List.mem_map] at hmem
    obtain ⟨img, _, himg⟩ := hmem
    rw [← himg]
  rw [actionPass_all_keep hall]
  constructor
  · intro lg hmem
    simp only [List.mem_map] at hmem
    obtain ⟨d, hd, hlg⟩ := hmem
    rw [← hlg]
    exact ⟨rfl, hreason d hd⟩
  · rfl

lemma processRepository_no_policy {compile : String → Option (String → Bool)}
    {client : Client} {repoName : String} {policy : RetentionPolicy} {now : Int}
    {res : List RetentionLog × List (String × String)}
    (h1 : policy.KeepLastCount ≤ 0) (h2 : policy.KeepDays ≤ 0)
    (hrun : processRepository compile client repoName policy now = Except.ok res) :
    (∀ lg ∈ res.1, lg.Action = "kept" ∧ lg.Reason = "no policy set") ∧ res.2 = [] := by
  unfold processRepository at hrun
  split at hrun
  · exact Except.noConfusion hrun
  · split at hrun
    · cases hrun
      exact ⟨fun lg hmem => absurd hmem (List.not_mem_nil lg), rfl⟩
    · simp only [Except.ok.injEq] at hrun
      rw [← hrun]
      exact no_policy_repo_result client repoName policy now _ h1 h2

lemma runRepos_no_policy {compile : String → Option (String → Bool)}
    {client : Client} {policy : RetentionPolicy} {now : Int}
    {filterRe excludeRe : Option (String → Bool)}
    (h1 : policy.KeepLastCount ≤ 0) (h2 : policy.KeepDays ≤ 0) :
    ∀ repos : List String,
      (∀ lg ∈ (runRepos compile client policy now filterRe excludeRe repos).1,
        lg.Action = "kept" ∧ lg.Reason = "no policy set")
      ∧ (runRepos compile client policy now filterRe excludeRe repos).2 = [] := by
  intro repos
  induction repos with
  | nil => exact ⟨fun lg hmem => absurd hmem (List.not_mem_nil lg), rfl⟩
  | cons repo rest ih =>
    unfold runRepos
    by_cases hskip : skipRepo filterRe excludeRe repo
    · simpa [hskip] using ih
    · simp only [hskip, Bool.false_eq_true, if_false]
      cases hp : processRepository compile client repo policy now with
      | error e => simpa using ih
      | ok res =>
        obtain ⟨hlogs, hdels⟩ := processRepository_no_policy h1 h2 hp
        refine ⟨?_, ?_⟩
        · intro lg hmem
          simp only [List.mem_append] at hmem
          rcases hmem with hmem | hmem
          · exact hlogs lg hmem
          · exact ih.1 lg hmem
        · simp [hdels, ih.2]

/-- C1: in the action pass, a candidate the decision pass marked not-keep
whose digest equals the digest of a kept candidate of the same repository
is logged as kept with reason "digest shared with retained tag", and no
DeleteManifest call with its digest is issued. -/
theorem c1_shared_digest_safety (client : Client) (repoName : String)
    (policy : RetentionPolicy) (ds : List tagDecision) (i : Nat) (hi : i < ds.length)
    (hk : (ds.get ⟨i, hi⟩).keep = false)
    (hshared : ∃ d ∈ ds, d.keep = true ∧ d.img.Digest = (ds.get ⟨i, hi⟩).img.Digest) :
    ((actionPass client repoName policy (keptDigests ds) ds).1.get
        ⟨i, by rw [actionPass_fst_length]; exact hi⟩).Action = "kept"
    ∧ ((actionPass client repoName policy (keptDigests ds) ds).1.get
        ⟨i, by rw [actionPass_fst_length]; exact hi⟩).Reason =
          "digest shared with retained tag"
    ∧ (ds.get ⟨i, hi⟩).img.Digest ∉
        ((actionPass client repoName policy (keptDigests ds) ds).2.map Prod.snd) := by
  have hmem : (ds.get ⟨i, hi⟩).img.Digest ∈ keptDigests ds :=
    mem_keptDigests.mpr hshared
  have hget := actionPass_fst_get client repoName policy (keptDigests ds) ds i hi
  have hone : (actionOne client repoName policy (keptDigests ds) (ds.get ⟨i, hi⟩)).1 =
      mkLog repoName (ds.get ⟨i, hi⟩) "kept" "digest shared with retained tag" := by
    unfold actionOne
    simp only [List.get_eq_getElem] at hk hmem ⊢
    simp [hk, hmem]
  refine ⟨?_, ?_, ?_⟩
  · rw [hget, hone]; rfl
  · rw [hget, hone]; rfl
  · intro hcon
    simp only [List.mem_map] at hcon
    obtain ⟨call, hcall, hsnd⟩ := hcon
    obtain ⟨d, _, _, hnm, hceq⟩ := mem_actionPass_deletes hcall
    rw [hceq] at hsnd
    simp only at hsnd
    rw [hsnd] at hnm
    exact hnm hmem

def wCompile : String → Option (String → Bool) := fun _ => none

def wClient : Client :=
  { ListRepositories := Except.ok ["app"]
    ListTags := fun _ => Except.ok ["v1", "v2"]
    GetImageCreated := fun _ t => Except.ok (if t = "v1" then 200 else 100)
    GetDigestForTag := fun _ t => Except.ok (if t = "v1" then "d1" else "d2")
    DeleteManifest := fun _ _ => Except.ok () }

def wPolicyDry : RetentionPolicy := ⟨1, 0, true, "", "", ""⟩

def wPolicyNone : RetentionPolicy := ⟨0, 0, false, "", "", ""⟩

def wDs : List tagDecision :=
  [⟨⟨"v1", "d1", 200, false⟩, true, "within last 1 images"⟩,
   ⟨⟨"v2", "d1", 100, false⟩, false, "default keep"⟩]

theorem c1_shared_digest_safety_witness :
    ((actionPass wClient "app" wPolicyNone (keptDigests wDs) wDs).1.get
        ⟨1, by decide⟩).Action = "kept"
    ∧ ((actionPass wClient "app" wPolicyNone (keptDigests wDs) wDs).1.get
        ⟨1, by decide⟩).Reason = "digest shared with retained tag"
    ∧ (wDs.get ⟨1, by decide⟩).img.Digest ∉
        ((actionPass wClient "app" wPolicyNone (keptDigests wDs) wDs).2.map Prod.snd) :=
  c1_shared_digest_safety wClient "app" wPolicyNone wDs 1 (by decide)
    (by decide) (by decide)

/-- C2: with keepLastCount ≤ 0 and keepDays ≤ 0, every log entry of the
run is kept with reason "no policy set" and no DeleteManifest call is
issued anywhere in the run. -/
theorem c2_no_policy_fail_safe (compile : String → Option (String → Bool))
    (client : Client) (policy : RetentionPolicy) (now : Int)
    (res : List RetentionLog × List (String × String))
    (h1 : policy.KeepLastCount ≤ 0) (h2 : policy.KeepDays ≤ 0)
    (hrun : RunRetention compile client policy now = Except.ok res) :
    res.1.all (fun lg => lg.Action == "kept" && lg.Reason == "no policy set") = true
    ∧ res.2 = [] := by
  unfold RunRetention at hrun
  split at hrun
  · exact Except.noConfusion hrun
  · simp only [Except.ok.injEq] at hrun
    rw [← hrun]
    constructor
    · rw [List.all_eq_true]
      intro lg hmem
      obtain ⟨ha, hr⟩ := (runRepos_no_policy h1 h2 _).1 lg hmem
      simp [ha, hr]
    · exact (runRepos_no_policy h1 h2 _).2

def wRes2 : List RetentionLog × List (String × String) :=
  ([⟨"app", "v1", "d1", 200, "kept", "no policy set"⟩,
    ⟨"app", "v2", "d2", 100, "kept", "no policy set"⟩], [])

theorem c2_no_policy_fail_safe_witness :
    (wPolicyNone.KeepLastCount ≤ 0 ∧ wPolicyNone.KeepDays ≤ 0
      ∧ RunRetention wCompile wClient wPolicyNone 1000 = Except.ok wRes2)
    ∧ (wRes2.1.all
        (fun lg => lg.Action == "kept" && lg.Reason == "no policy set") = true
      ∧ wRes2.2 = []) :=
  ⟨⟨by decide, by decide, rfl⟩,
    c2_no_policy_fail_safe wCompile wClient wPolicyNone 1000 wRes2
      (by decide) (by decide) rfl⟩

/-- C3: with dryRun = true, a candidate that is not kept and whose digest
is not shared with a retained one is logged as would_delete with reason
"exceeds retention limits", and the whole run issues no DeleteManifest
call. -/
theorem c3_dry_run_no_deletes (compile : String → Option (String → Bool))
    (client : Client) (policy : RetentionPolicy) (now : Int) (repoName : String)
    (ds : List tagDecision) (res : List RetentionLog × List (String × String))
    (i : Nat) (hi : i < ds.length)
    (hdry : policy.DryRun = true)
    (hk : (ds.get ⟨i, hi⟩).keep = false)
    (hns : (ds.get ⟨i, hi⟩).img.Digest ∉ keptDigests ds)
    (hrun : RunRetention compile client policy now = Except.ok res) :
    ((actionPass client repoName policy (keptDigests ds) ds).1.get
        ⟨i, by rw [actionPass_fst_length]; exact hi⟩).Action = "would_delete"
    ∧ ((actionPass client repoName policy (keptDigests ds) ds).1.get
        ⟨i, by rw [actionPass_fst_length]; exact hi⟩).Reason =
          "exceeds retention limits"
    ∧ res.2 = [] := by
  have hget := actionPass_fst_get client repoName policy (keptDigests ds) ds i hi
  have hone : (actionOne client repoName policy (keptDigests ds) (ds.get ⟨i, hi⟩)).1 =
      mkLog repoName (ds.get ⟨i, hi⟩) "would_delete" "exceeds retention limits" := by
    unfold actionOne
    simp only [List.get_eq_getElem] at hk hns ⊢
    simp [hk, hns, hdry]
  refine ⟨by rw [hget, hone]; rfl, by rw [hget, hone]; rfl, ?_⟩
  unfold RunRetention at hrun
  split at hrun
  · exact Except.noConfusion hrun
  · simp only [Except.ok.injEq] at hrun
    rw [← hrun]
    exact runRepos_snd_dryRun hdry _

def wDs2 : List tagDecision :=
  [⟨⟨"v1", "d1", 200, false⟩, true, "within last 1 images"⟩,
   ⟨⟨"v2", "d2", 100, false⟩, false, "default keep"⟩]

def wRes3 : List RetentionLog × List (String × String) :=
  ([⟨"app", "v1", "d1", 200, "kept", "within last 1 images"⟩,
    ⟨"app", "v2", "d2", 100, "would_delete", "exceeds retention limits"⟩], [])

theorem c3_dry_run_no_deletes_witness :
    ((actionPass wClient "app" wPolicyDry (keptDigests wDs2) wDs2).1.get
        ⟨1, by decide⟩).Action = "would_delete"
    ∧ ((actionPass wClient "app" wPolicyDry (keptDigests wDs2) wDs2).1.get
        ⟨1, by decide⟩).Reason = "exceeds retention limits"
    ∧ wRes3.2 = [] :=
  c3_dry_run_no_deletes wCompile wClient wPolicyDry 1000 "app" wDs2 wRes3
    1 (by decide) (by decide) (by decide) (by decide) rfl

/-- C4: with keepLastCount = N > 0 as the only applicable rule (keepDays
disabled, no protected tag), the decision pass over the sorted candidates
keeps exactly indices 0..N-1, with reason "within last N images", and
marks every later candidate a deletion candidate. -/
theorem c4_keep_last_n (policy : RetentionPolicy) (now : Int)
    (imgs : List imageInfo) (i : Nat)
    (hsorted : List.Pairwise (fun a b => b.Created ≤ a.Created) imgs)
    (hN : 0 < policy.KeepLastCount) (hD : policy.KeepDays ≤ 0)
    (hP : ∀ img ∈ imgs, img.Protected = false)
    (hi : i < imgs.length) :
    ((decisionPass policy now 0 imgs).get
        ⟨i, by rw [decisionPass_length]; exact hi⟩).keep =
      decide ((i : Int) < policy.KeepLastCount)
    ∧ ((decisionPass policy now 0 imgs).get
        ⟨i, by rw [decisionPass_length]; exact hi⟩).reason =
      (if (i : Int) < policy.KeepLastCount then
        "within last " ++ toString policy.KeepLastCount ++ " images"
      else "default keep") := by
  have hget := decisionPass_get policy now imgs 0 i hi
  have hPi : (imgs.get ⟨i, hi⟩).Protected = false :=
    hP _ (List.get_mem imgs i hi)
  have hdt := @decideTag_keep_last_only policy now ((0 + i : Nat) : Int)
    (imgs.get ⟨i, hi⟩) hN hD hPi
  rw [hget]
  have hcast : (((0 + i : Nat) : Int)) = (i : Int) := by
    norm_num
  constructor
  · show (decideTag policy now ((0 + i : Nat) : Int) (imgs.get ⟨i, hi⟩)).1 = _
    rw [hdt, hcast]
  · show (decideTag policy now ((0 + i : Nat) : Int) (imgs.get ⟨i, hi⟩)).2 = _
    rw [hdt, hcast]

def wImgs : List imageInfo :=
  [⟨"v5", "e5", 500, false⟩, ⟨"v4", "e4", 400, false⟩, ⟨"v3", "e3", 300, false⟩,
   ⟨"v2", "e2", 200, false⟩, ⟨"v1", "e1", 100, false⟩]

def wPolicyN2 : RetentionPolicy := ⟨2, 0, true, "", "", ""⟩

theorem c4_keep_last_n_witness :
    ((decisionPass wPolicyN2 1000 0 wImgs).get ⟨2, by decide⟩).keep =
      decide ((2 : Int) < wPolicyN2.KeepLastCount)
    ∧ ((decisionPass wPolicyN2 1000 0 wImgs).get ⟨2, by decide⟩).reason =
      (if ((2 : Nat) : Int) < wPolicyN2.KeepLastCount then
        "within last " ++ toString wPolicyN2.KeepLastCount ++ " images"
      else "default keep") :=
  c4_keep_last_n wPolicyN2 1000 wImgs 2 (by decide) (by decide) (by decide)
    (by decide) (by decide)

/-- C5: with keepDays = D > 0 as the only applicable rule, the decision
pass keeps a candidate exactly when its age is strictly below D days
(now - created < D * nsPerDay). -/
theorem c5_keep_days_boundary (policy : RetentionPolicy) (now : Int)
    (imgs : List imageInfo) (i : Nat)
    (hD : 0 < policy.KeepDays) (hN : policy.KeepLastCount ≤ 0)
    (hP : ∀ img ∈ imgs, img.Protected = false)
    (hi : i < imgs.length) :
    ((decisionPass policy now 0 imgs).get
        ⟨i, by rw [decisionPass_length]; exact hi⟩).keep =
      decide (now - (imgs.get ⟨i, hi⟩).Created < policy.KeepDays * nsPerDay) := by
  have hget := decisionPass_get policy now imgs 0 i hi
  have hPi : (imgs.get ⟨i, hi⟩).Protected = false :=
    hP _ (List.get_mem imgs i hi)
  have hdt := @decideTag_keep_days_only policy now ((0 + i : Nat) : Int)
    (imgs.get ⟨i, hi⟩) hN hD hPi
  rw [hget]
  show (decideTag policy now ((0 + i : Nat) : Int) (imgs.get ⟨i, hi⟩)).1 = _
  rw [hdt]
  rw [decide_eq_decide]
  exact ageDays_lt_iff hD

def wPolicyD7 : RetentionPolicy := ⟨0, 7, true, "", "", ""⟩

def wImgsAge : List imageInfo :=
  [⟨"young", "f1", 4 * nsPerDay, false⟩, ⟨"old", "f2", 2 * nsPerDay, false⟩]

theorem c5_keep_days_boundary_witness :
    (((decisionPass wPolicyD7 (10 * nsPerDay) 0 wImgsAge).get ⟨0, by decide⟩).keep =
      decide (10 * nsPerDay - (wImgsAge.get ⟨0, by decide⟩).Created <
        wPolicyD7.KeepDays * nsPerDay))
    ∧ (((decisionPass wPolicyD7 (10 * nsPerDay) 0 wImgsAge).get ⟨1, by decide⟩).keep =
      decide (10 * nsPerDay - (wImgsAge.get ⟨1, by decide⟩).Created <
        wPolicyD7.KeepDays * nsPerDay)) :=
  ⟨c5_keep_days_boundary wPolicyD7 (10 * nsPerDay) wImgsAge 0
      (by decide) (by decide) (by decide) (by decide),
    c5_keep_days_boundary wPolicyD7 (10 * nsPerDay) wImgsAge 1
      (by decide) (by decide) (by decide) (by decide)⟩

lemma mem_decisionPass_img {policy : RetentionPolicy} {now : Int} {i0 : Nat}
    {imgs : List imageInfo} {d : tagDecision}
    (hd : d ∈ decisionPass policy now i0 imgs) : d.img ∈ imgs := by
  have h := decisionPass_map_img policy now i0 imgs
  rw [← h]
  exact List.mem_map_of_mem _ hd

/-- C8: a tag whose creation-time or digest fetch fails is dropped from
the run: it appears in no log entry of the repository, and every
DeleteManifest call of the repository targets the digest of a logged
(fully fetched) candidate. -/
theorem c8_failed_fetch_dropped (compile : String → Option (String → Bool))
    (client : Client) (repoName : String) (policy : RetentionPolicy) (now : Int)
    (t : String) (res : List RetentionLog × List (String × String))
    (hfail : (∃ e, client.GetImageCreated repoName t = Except.error e) ∨
      (∃ e, client.GetDigestForTag repoName t = Except.error e))
    (hrun : processRepository compile client repoName policy now = Except.ok res) :
    t ∉ res.1.map RetentionLog.Tag
    ∧ res.2.map Prod.snd ⊆ res.1.map RetentionLog.Digest := by
  unfold processRepository at hrun
  split at hrun
  · exact Except.noConfusion hrun
  · split at hrun
    · cases hrun
      exact ⟨by simp, by simp⟩
    · simp only [Except.ok.injEq] at hrun
      rw [← hrun]
      constructor
      · rw [actionPass_fst_map_tag, decisionPass_map_img_tag]
        intro hmem
        have hmem2 :=
          (List.Perm.mem_iff ((sortImages_perm _).map imageInfo.Tag)).mp hmem
        exact not_mem_collectImages hfail _ hmem2
      · intro dgst hmem
        simp only [List.mem_map] at hmem
        obtain ⟨call, hcall, hsnd⟩ := hmem
        obtain ⟨d, hd, _, _, hceq⟩ := mem_actionPass_deletes hcall
        rw [actionPass_fst_map_digest, decisionPass_map_img_digest]
        have himg := mem_decisionPass_img hd
        have : d.img.Digest = dgst := by
          rw [hceq] at hsnd
          exact hsnd
        rw [← this]
        exact List.mem_map_of_mem imageInfo.Digest himg

def wClientFail : Client :=
  { ListRepositories := Except.ok ["app"]
    ListTags := fun _ => Except.ok ["good", "bad"]
    GetImageCreated := fun _ t =>
      if t = "bad" then Except.error "no created time" else Except.ok 100
    GetDigestForTag := fun _ _ => Except.ok "d1"
    DeleteManifest := fun _ _ => Except.ok () }

def wRes8 : List RetentionLog × List (String × String) :=
  ([⟨"app", "good", "d1", 100, "kept", "within last 1 images"⟩], [])

theorem c8_failed_fetch_dropped_witness :
    "bad" ∉ wRes8.1.map RetentionLog.Tag
    ∧ wRes8.2.map Prod.snd ⊆ wRes8.1.map RetentionLog.Digest :=
  c8_failed_fetch_dropped wCompile wClientFail "app" wPolicyDry 1000 "bad" wRes8
    (Or.inl ⟨"no created time", rfl⟩) rfl

/-
  Lemmas about the scan scheduler.
-/

lemma scheduleInterval_eq (p : ScanPolicy) :
    scheduleInterval p = if p.IntervalHours ≤ 0 then 24 else p.IntervalHours := by
  unfold scheduleInterval
  rcases lt_or_le p.IntervalHours 1 with h | h
  · rw [if_pos h, if_pos (by omega)]
  · rw [if_neg (by omega), if_neg (by omega)]

lemma isDue_triggerUpdate (now : Int) (p : ScanPolicy) :
    isDue now (triggerUpdate now p) = false := by
  unfold triggerUpdate isDue
  simp only [decide_eq_false_iff_not, not_lt]
  unfold scheduleNext scheduleInterval nsPerHour
  split <;> omega

lemma checkSchedules_fst (now : Int) :
    ∀ ps : List ScanPolicy,
      (checkSchedules now ps).1 =
        ps.map (fun q => if isDue now q then triggerUpdate now q else q) := by
  intro ps
  induction ps with
  | nil => rfl
  | cons p rest ih =>
    unfold checkSchedules
    by_cases h : isDue now p
    · simp [h, ih]
    · simp [h, ih]

lemma checkSchedules_snd_nil_of_not_due (now : Int) :
    ∀ ps : List ScanPolicy, (∀ p ∈ ps, isDue now p = false) →
      (checkSchedules now ps).2 = [] := by
  intro ps
  induction ps with
  | nil => intro _; rfl
  | cons p rest ih =>
    intro hall
    unfold checkSchedules
    have hp : isDue now p = false := hall p (List.mem_cons_self p rest)
    simp only [hp, Bool.false_eq_true, if_false]
    exact ih (fun q hq => hall q (List.mem_cons_of_mem p hq))

lemma second_tick_empty (now : Int) (ps : List ScanPolicy) :
    (checkSchedules now (checkSchedules now ps).1).2 = [] := by
  apply checkSchedules_snd_nil_of_not_due
  intro p hmem
  rw [checkSchedules_fst] at hmem
  simp only [List.mem_map] at hmem
  obtain ⟨q, _, hq⟩ := hmem
  by_cases h : isDue now q
  · rw [← hq, if_pos h]
    exact isDue_triggerUpdate now q
  · rw [← hq, if_neg h]
    exact Bool.eq_false_iff.mpr h

/-- C6: a policy is triggered on a tick exactly when nextRunAt is unset or
strictly in the past; a trigger persists lastRunAt = now and
nextRunAt = now + intervalHours (24h when intervalHours ≤ 0) before the
spawn of the enumeration goroutine, and a second tick at the same now
triggers nothing. -/
theorem c6_scheduler_due_idempotence (now : Int) (ps : List ScanPolicy)
    (p : ScanPolicy) :
    (isDue now p = true ↔
      (p.NextRunAt = none ∨ ∃ t, p.NextRunAt = some t ∧ t < now))
    ∧ (checkSchedules now [p]).2 =
        (if isDue now p then
          [SchedEvent.persistRunTime p.ID now
              (now + (if p.IntervalHours ≤ 0 then 24 else p.IntervalHours) * nsPerHour),
            SchedEvent.spawnTrigger p.ID]
        else [])
    ∧ (checkSchedules now ps).1 =
        ps.map (fun q => if isDue now q then triggerUpdate now q else q)
    ∧ (triggerUpdate now p).LastRunAt = some now
    ∧ (triggerUpdate now p).NextRunAt =
        some (now + (if p.IntervalHours ≤ 0 then 24 else p.IntervalHours) * nsPerHour)
    ∧ isDue now (triggerUpdate now p) = false
    ∧ (checkSchedules now (checkSchedules now ps).1).2 = [] := by
  have hnext : scheduleNext now p =
      now + (if p.IntervalHours ≤ 0 then 24 else p.IntervalHours) * nsPerHour := by
    unfold scheduleNext
    rw [scheduleInterval_eq]
  refine ⟨?_, ?_, checkSchedules_fst now ps, rfl, ?_, isDue_triggerUpdate now p,
    second_tick_empty now ps⟩
  · unfold isDue
    cases hnr : p.NextRunAt with
    | none => simp
    | some t => simp [decide_eq_true_iff]
  · unfold checkSchedules
    by_cases h : isDue now p
    · simp only [h, if_true, hnext]
      rfl
    · simp [h, checkSchedules]
  · show (triggerUpdate now p).NextRunAt = _
    unfold triggerUpdate
    rw [hnext]

/-- C10: when persisting the initial scanning-status record fails, the
worker performs only that one save attempt for the job — no scanner
invocation and no result record — and the loop proceeds to the remaining
queued jobs. -/
theorem c10_worker_initial_save_failure (env : WorkerEnv) (now1 now2 : Int)
    (job : ScanJob) (rest : List ScanJob) (e : String)
    (hsave : env.saveScan (initialScan now1 job) = Except.error e) :
    processJob env now1 now2 job = [WorkerEvent.saveAttempt (initialScan now1 job)]
    ∧ runWorker env now1 now2 (job :: rest) =
        WorkerEvent.saveAttempt (initialScan now1 job) :: runWorker env now1 now2 rest := by
  have hpj : processJob env now1 now2 job =
      [WorkerEvent.saveAttempt (initialScan now1 job)] := by
    unfold processJob
    rw [hsave]
  refine ⟨hpj, ?_⟩
  show processJob env now1 now2 job ++ runWorker env now1 now2 rest =
      WorkerEvent.saveAttempt (initialScan now1 job) :: runWorker env now1 now2 rest
  rw [hpj]
  rfl

def wEnvFail : WorkerEnv :=
  { saveScan := fun _ => Except.error "db locked"
    scanImage := fun _ _ _ => Except.ok ("report", "summary") }

def wJob : ScanJob := ⟨"http://reg", 1, "app", "v1"⟩

theorem c10_worker_initial_save_failure_witness :
    processJob wEnvFail 5 6 wJob = [WorkerEvent.saveAttempt (initialScan 5 wJob)]
    ∧ runWorker wEnvFail 5 6 (wJob :: [wJob]) =
        WorkerEvent.saveAttempt (initialScan 5 wJob) :: runWorker wEnvFail 5 6 [wJob] :=
  c10_worker_initial_save_failure wEnvFail 5 6 wJob [wJob] "db locked" rfl

/-
  Policy-field congruence: the per-repository pipeline reads only
  KeepLastCount, KeepDays, DryRun and ExcludeTags of the policy record.
-/

lemma decideTag_eq_of {p q : RetentionPolicy}
    (h1 : p.KeepLastCount = q.KeepLastCount) (h2 : p.KeepDays = q.KeepDays)
    (now i : Int) (img : imageInfo) :
    decideTag p now i img = decideTag q now i img := by
  unfold decideTag
  rw [h1, h2]

lemma decisionPass_eq_of {p q : RetentionPolicy}
    (h1 : p.KeepLastCount = q.KeepLastCount) (h2 : p.KeepDays = q.KeepDays)
    (now : Int) :
    ∀ (i0 : Nat) (imgs : List imageInfo),
      decisionPass p now i0 imgs = decisionPass q now i0 imgs := by
  intro i0 imgs
  induction imgs generalizing i0 with
  | nil => rfl
  | cons x xs ih => simp [decisionPass, decideTag_eq_of h1 h2, ih]

lemma actionOne_eq_of {p q : RetentionPolicy} (h3 : p.DryRun = q.DryRun)
    (client : Client) (repoName : String) (kept : List String) (d : tagDecision) :
    actionOne client repoName p kept d = actionOne client repoName q kept d := by
  unfold actionOne
  rw [h3]

lemma actionPass_eq_of {p q : RetentionPolicy} (h3 : p.DryRun = q.DryRun)
    (client : Client) (repoName : String) (kept : List String) :
    ∀ ds : List tagDecision,
      actionPass client repoName p kept ds = actionPass client repoName q kept ds := by
  intro ds
  induction ds with
  | nil => rfl
  | cons d rest ih =>
    simp [actionPass, actionOne_eq_of h3, ih]

lemma processRepository_eq_of {compile : String → Option (String → Bool)}
    {client : Client} {repoName : String} {now : Int} {p q : RetentionPolicy}
    (h1 : p.KeepLastCount = q.KeepLastCount) (h2 : p.KeepDays = q.KeepDays)
    (h3 : p.DryRun = q.DryRun)
    (h4 : compileOpt compile p.ExcludeTags = compileOpt compile q.ExcludeTags) :
    processRepository compile client repoName p now =
      processRepository compile client repoName q now := by
  unfold processRepository
  cases hlt : client.ListTags repoName with
  | error e => rfl
  | ok tags =>
    dsimp only
    by_cases hemp : tags.isEmpty = true
    · rw [if_pos hemp, if_pos hemp]
    · rw [if_neg hemp, if_neg hemp, h4, decisionPass_eq_of h1 h2 now 0,
        actionPass_eq_of h3]

lemma runRepos_eq_of {compile : String → Option (String → Bool)}
    {client : Client} {now : Int} {p q : RetentionPolicy}
    (h1 : p.KeepLastCount = q.KeepLastCount) (h2 : p.KeepDays = q.KeepDays)
    (h3 : p.DryRun = q.DryRun)
    (h4 : compileOpt compile p.ExcludeTags = compileOpt compile q.ExcludeTags)
    (filterRe excludeRe : Option (String → Bool)) :
    ∀ repos : List String,
      runRepos compile client p now filterRe excludeRe repos =
        runRepos compile client q now filterRe excludeRe repos := by
  intro repos
  induction repos with
  | nil => rfl
  | cons repo rest ih =>
    unfold runRepos
    rw [ih, processRepository_eq_of h1 h2 h3 h4]

lemma RunRetention_error_eq {compile : String → Option (String → Bool)}
    {client : Client} {policy : RetentionPolicy} {now : Int} {e : String}
    (hrepos : client.ListRepositories = Except.error e) :
    RunRetention compile client policy now =
      Except.error ("failed to list repositories: " ++ e) := by
  unfold RunRetention
  rw [hrepos]

lemma RunRetention_ok_eq {compile : String → Option (String → Bool)}
    {client : Client} {policy : RetentionPolicy} {now : Int} {repos : List String}
    (hrepos : client.ListRepositories = Except.ok repos) :
    RunRetention compile client policy now =
      Except.ok (runRepos compile client policy now
        (compileOpt compile policy.FilterRepos)
        (compileOpt compile policy.ExcludeRepos) repos) := by
  unfold RunRetention
  rw [hrepos]

lemma triggerPolicy_invalid_filter {compile : String → Option (String → Bool)}
    {getRegistry : Int → Except String Registry} {mkClient : Registry → Client}
    {p : ScanPolicy} {queue0 : List ScanJob}
    (hp : p.FilterRepos ≠ "") (hbad : compile p.FilterRepos = none) :
    triggerPolicy compile getRegistry mkClient p queue0 = (queue0, none) := by
  unfold triggerPolicy
  cases hg : getRegistry p.RegistryID with
  | error e => rfl
  | ok reg =>
    dsimp only
    cases hr : (mkClient reg).ListRepositories with
    | error e => rfl
    | ok repos =>
      dsimp only
      rw [if_neg hp, hbad]

/-- C7 (amended): in the Retention Engine an invalid pattern in any one of
filterRepos, excludeRepos or excludeTags degrades to no filter for that
field alone — the run is identical to a run with just that field empty,
whatever the other fields hold; in the Scan Scheduler dispatch, however,
an invalid filterRepos aborts that policy's dispatch before any tag is
enqueued: the queue is left untouched and no count is reported (logged,
non-fatal to the scheduler process). -/
theorem c7_invalid_regex (compile : String → Option (String → Bool))
    (client : Client) (policy : RetentionPolicy) (now : Int)
    (getRegistry : Int → Except String Registry) (mkClient : Registry → Client)
    (p : ScanPolicy) (queue0 : List ScanJob)
    (hp : p.FilterRepos ≠ "") (hbad : compile p.FilterRepos = none) :
    (compile policy.FilterRepos = none →
      RunRetention compile client policy now =
        RunRetention compile client { policy with FilterRepos := "" } now)
    ∧ (compile policy.ExcludeRepos = none →
      RunRetention compile client policy now =
        RunRetention compile client { policy with ExcludeRepos := "" } now)
    ∧ (compile policy.ExcludeTags = none →
      RunRetention compile client policy now =
        RunRetention compile client { policy with ExcludeTags := "" } now)
    ∧ triggerPolicy compile getRegistry mkClient p queue0 = (queue0, none) := by
  refine ⟨?_, ?_, ?_, triggerPolicy_invalid_filter hp hbad⟩
  · intro hf
    have hfr : compileOpt compile policy.FilterRepos = none := by
      unfold compileOpt
      split
      · rfl
      · exact hf
    cases hc : client.ListRepositories with
    | error e => rw [RunRetention_error_eq hc, RunRetention_error_eq hc]
    | ok repos =>
      rw [RunRetention_ok_eq hc, RunRetention_ok_eq hc, hfr]
      exact congrArg Except.ok
        (@runRepos_eq_of compile client now policy { policy with FilterRepos := "" }
          rfl rfl rfl rfl _ _ repos)
  · intro he
    have her : compileOpt compile policy.ExcludeRepos = none := by
      unfold compileOpt
      split
      · rfl
      · exact he
    cases hc : client.ListRepositories with
    | error e => rw [RunRetention_error_eq hc, RunRetention_error_eq hc]
    | ok repos =>
      rw [RunRetention_ok_eq hc, RunRetention_ok_eq hc, her]
      exact congrArg Except.ok
        (@runRepos_eq_of compile client now policy { policy with ExcludeRepos := "" }
          rfl rfl rfl rfl _ _ repos)
  · intro ht
    have het : compileOpt compile policy.ExcludeTags = none := by
      unfold compileOpt
      split
      · rfl
      · exact ht
    cases hc : client.ListRepositories with
    | error e => rw [RunRetention_error_eq hc, RunRetention_error_eq hc]
    | ok repos =>
      rw [RunRetention_ok_eq hc, RunRetention_ok_eq hc]
      exact congrArg Except.ok
        (@runRepos_eq_of compile client now policy { policy with ExcludeTags := "" }
          rfl rfl rfl (het.trans rfl) _ _ repos)

def schedReg : Registry := ⟨1, "http://reg"⟩

def schedGetRegistry : Int → Except String Registry := fun _ => Except.ok schedReg

def schedMkClient : Registry → Client := fun _ => wClient

def schedPolicyBad : ScanPolicy := ⟨1, 1, true, 24, none, none, "(", ""⟩

def schedPolicyEmpty : ScanPolicy := ⟨1, 1, true, 24, none, none, "", ""⟩

/-- C7 counterexample: with an invalid filterRepos pattern the scheduler
dispatch does not behave as if the field were empty — it enqueues nothing
and reports no count, while the empty-filter dispatch enqueues every tag. -/
theorem c7_counterexample :
    triggerPolicy wCompile schedGetRegistry schedMkClient schedPolicyBad [] ≠
      triggerPolicy wCompile schedGetRegistry schedMkClient schedPolicyEmpty [] := by
  decide

/-- A compile oracle that fails on the single malformed pattern "(" and
succeeds on every other pattern, giving the store's default whitelist
pattern its real semantics. -/
def wCompileSel : String → Option (String → Bool) :=
  fun pat =>
    if pat = "(" then none
    else some (fun s =>
      pat = "^latest$|^main$|^master$" && (s == "latest" || s == "main" || s == "master"))

/-- One invalid field (FilterRepos) next to a valid, non-empty, consulted
ExcludeTags pattern: the per-field case of the amended claim. -/
def wPolicyMixed : RetentionPolicy := ⟨1, 0, true, "(", "", "^latest$|^main$|^master$"⟩

theorem c7_invalid_regex_witness :
    (wCompileSel wPolicyMixed.FilterRepos = none
      ∧ wCompileSel wPolicyMixed.ExcludeTags ≠ none
      ∧ schedPolicyBad.FilterRepos ≠ ""
      ∧ wCompileSel schedPolicyBad.FilterRepos = none)
    ∧ RunRetention wCompileSel wClient wPolicyMixed 1000 =
        RunRetention wCompileSel wClient { wPolicyMixed with FilterRepos := "" } 1000
    ∧ triggerPolicy wCompileSel schedGetRegistry schedMkClient schedPolicyBad [] =
        ([], none) :=
  ⟨⟨rfl, fun hcon => Option.noConfusion hcon, by decide, rfl⟩,
    (c7_invalid_regex wCompileSel wClient wPolicyMixed 1000 schedGetRegistry
        schedMkClient schedPolicyBad [] (by decide) rfl).1 rfl,
    (c7_invalid_regex wCompileSel wClient wPolicyMixed 1000 schedGetRegistry
        schedMkClient schedPolicyBad [] (by decide) rfl).2.2.2⟩

end RegistryDashboard
